import Mathlib

/-!
Verification of the byte-sink serializers of `rkyv` (`src/ser/serializers.rs`).

The two concrete sinks are shallowly embedded:

* `BufferSerializer` wraps a fixed byte buffer (modelled as a `List Nat`)
  together with a cursor `pos`; `write`, `pad` and `seek` mirror the Rust
  methods line-by-line.  A Rust method `fn f(&mut self, …) -> Result<(), E>`
  becomes a Lean function `f : State → … → State × Option E`: the returned
  state is `self` after the call, and `none` means `Ok(())`.
* `WriteSerializer` wraps an abstract `io::Write` destination, modelled by a
  record of state-passing functions (`Dest`).

Machine arithmetic: the Rust code computes `self.pos + bytes.len()` in
`usize`.  For claims where overflow matters the checked (debug-build)
semantics is modelled by `checkedAdd`, which returns `none` — a trap — when
the sum does not fit in 64 bits.
-/

namespace Rkyv

/-- The error type returned by a `BufferSerializer`
    (`enum BufferSerializerError` in the source). -/
inductive BufferSerializerError where
  | Overflow (pos bytes_needed archive_len : Nat)
  | SoughtPastEnd (seek_position archive_len : Nat)
deriving DecidableEq, Repr

/-- `struct BufferSerializer<T> { inner: T, pos: usize }` with the byte
    buffer `T` modelled as a list of bytes. -/
structure BufferSerializer where
  inner : List Nat
  pos : Nat
deriving DecidableEq, Repr

namespace BufferSerializer

/-- `BufferSerializer::with_pos(inner, pos)`: no bounds check at construction. -/
def with_pos (inner : List Nat) (pos : Nat) : BufferSerializer :=
  ⟨inner, pos⟩

/-- `BufferSerializer::new(inner)`. -/
def new (inner : List Nat) : BufferSerializer :=
  with_pos inner 0

/-- `BufferSerializer::into_inner(self)`. -/
def into_inner (s : BufferSerializer) : List Nat :=
  s.inner

/-- `Serializer::write` for `BufferSerializer`.  The success branch performs
    `ptr::copy_nonoverlapping(bytes, inner + pos, bytes.len())`, i.e. it
    replaces the bytes at indices `[pos, pos + bytes.len())`. -/
def write (s : BufferSerializer) (bytes : List Nat) :
    BufferSerializer × Option BufferSerializerError :=
  let end_pos := s.pos + bytes.length
  let archive_len := s.inner.length
  if end_pos > archive_len then
    (s, some (.Overflow s.pos bytes.length archive_len))
  else
    (⟨s.inner.take s.pos ++ bytes ++ s.inner.drop end_pos, end_pos⟩, none)

/-- `Serializer::pad` for `BufferSerializer`: same bounds check as `write`
    but the buffer is never touched. -/
def pad (s : BufferSerializer) (padding : Nat) :
    BufferSerializer × Option BufferSerializerError :=
  let end_pos := s.pos + padding
  let archive_len := s.inner.length
  if end_pos > archive_len then
    (s, some (.Overflow s.pos padding archive_len))
  else
    (⟨s.inner, end_pos⟩, none)

/-- `SeekSerializer::seek` for `BufferSerializer`. -/
def seek (s : BufferSerializer) (pos : Nat) :
    BufferSerializer × Option BufferSerializerError :=
  let len := s.inner.length
  if pos > len then
    (s, some (.SoughtPastEnd pos len))
  else
    (⟨s.inner, pos⟩, none)

end BufferSerializer

/-- `2 ^ 64`, one past the largest `usize` value on the 64-bit targets the
    crate is compiled for. -/
def usizeBound : Nat := 2 ^ 64

/-- `usize` addition under debug-build semantics: `none` models the overflow
    trap (panic) raised when `a + b` does not fit in 64 bits. -/
def checkedAdd (a b : Nat) : Option Nat :=
  if a + b < usizeBound then some (a + b) else none

/-- `BufferSerializer::write` with the bounds computation
    `self.pos + bytes.len()` performed in checked `usize` arithmetic;
    `none` models a trap before any typed error can be produced. -/
def BufferSerializer.writeChecked (s : BufferSerializer) (bytes : List Nat) :
    Option (BufferSerializer × Option BufferSerializerError) :=
  match checkedAdd s.pos bytes.length with
  | none => none
  | some end_pos =>
    let archive_len := s.inner.length
    if end_pos > archive_len then
      some (s, some (.Overflow s.pos bytes.length archive_len))
    else
      some (⟨s.inner.take s.pos ++ bytes ++ s.inner.drop end_pos, end_pos⟩, none)

/-- `BufferSerializer::pad` with the bounds computation
    `self.pos + padding` performed in checked `usize` arithmetic. -/
def BufferSerializer.padChecked (s : BufferSerializer) (padding : Nat) :
    Option (BufferSerializer × Option BufferSerializerError) :=
  match checkedAdd s.pos padding with
  | none => none
  | some end_pos =>
    let archive_len := s.inner.length
    if end_pos > archive_len then
      some (s, some (.Overflow s.pos padding archive_len))
    else
      some (⟨s.inner, end_pos⟩, none)

/-- `BufferSerializer::pad` under release-build `usize` semantics: the
    bounds computation `self.pos + padding` wraps modulo `2^64` instead of
    trapping.  Unlike `write`, `pad` touches no memory, so this execution is
    fully defined even when the wrapped `end_pos` defeats the bounds check. -/
def BufferSerializer.padWrap (s : BufferSerializer) (padding : Nat) :
    BufferSerializer × Option BufferSerializerError :=
  let end_pos := (s.pos + padding) % usizeBound
  let archive_len := s.inner.length
  if end_pos > archive_len then
    (s, some (.Overflow s.pos padding archive_len))
  else
    (⟨s.inner, end_pos⟩, none)

/-- An `io::Write` (+ `io::Seek`) destination for `WriteSerializer`,
    as a record of state-passing functions over a destination state `σ`:
    `writeFn` is `io::Write::write` — it may accept fewer bytes than
    requested and returns the number accepted; `seekFn` is
    `io::Seek::seek(SeekFrom::Start _)`.  Either can mutate the state and
    report an error `ε`. -/
structure Dest (σ ε : Type) where
  writeFn : σ → List Nat → σ × Except ε Nat
  seekFn : σ → Nat → σ × Option ε

/-- `struct WriteSerializer<W> { inner: W, pos: usize }`. -/
structure WriteSerializer (σ : Type) where
  inner : σ
  pos : Nat

/-- `Serializer::write` for `WriteSerializer`:
    `self.pos += self.inner.write(bytes)?` — a single call to the
    destination's `write`, advancing `pos` by the count it returns. -/
def WriteSerializer.write {σ ε : Type} (d : Dest σ ε)
    (s : WriteSerializer σ) (bytes : List Nat) :
    WriteSerializer σ × Option ε :=
  match d.writeFn s.inner bytes with
  | (st, .error e) => (⟨st, s.pos⟩, some e)
  | (st, .ok n) => (⟨st, s.pos + n⟩, none)

/-- `SeekSerializer::seek` for `WriteSerializer`:
    `self.inner.seek(SeekFrom::Start(offset))?; self.pos = offset`. -/
def WriteSerializer.seek {σ ε : Type} (d : Dest σ ε)
    (s : WriteSerializer σ) (offset : Nat) :
    WriteSerializer σ × Option ε :=
  match d.seekFn s.inner offset with
  | (st, some e) => (⟨st, s.pos⟩, some e)
  | (st, none) => (⟨st, offset⟩, none)

/-- A destination that accepts at most `k` bytes per `write` call
    (a short-write simulation); `seek` always succeeds without moving data. -/
def chunkDest (k : Nat) : Dest (List Nat) Unit where
  writeFn := fun st bytes => (st ++ bytes.take k, .ok (min k bytes.length))
  seekFn := fun st _ => (st, none)

/-- A destination whose `write` and `seek` always fail, leaving the
    received bytes unchanged. -/
def failDest : Dest (List Nat) Unit where
  writeFn := fun st _ => (st, .error ())
  seekFn := fun st _ => (st, some ())

/-- Performing `write b₁, write b₂, …` sequentially, stopping at the first
    error. -/
def writeAll (s : BufferSerializer) :
    List (List Nat) → BufferSerializer × Option BufferSerializerError
  | [] => (s, none)
  | b :: rest =>
    match s.write b with
    | (s', none) => writeAll s' rest
    | (s', some e) => (s', some e)

/-! ### Helper lemmas: the value of each operation on both branches -/

theorem write_ok_eq (st b : List Nat) (p : Nat) (h : p + b.length ≤ st.length) :
    BufferSerializer.write ⟨st, p⟩ b =
      (⟨st.take p ++ b ++ st.drop (p + b.length), p + b.length⟩, none) := by
  simp only [BufferSerializer.write]
  rw [if_neg (by omega)]

theorem write_err_eq (st b : List Nat) (p : Nat) (h : st.length < p + b.length) :
    BufferSerializer.write ⟨st, p⟩ b =
      (⟨st, p⟩, some (.Overflow p b.length st.length)) := by
  simp only [BufferSerializer.write]
  rw [if_pos (by omega)]

theorem pad_ok_eq (st : List Nat) (p c : Nat) (h : p + c ≤ st.length) :
    BufferSerializer.pad ⟨st, p⟩ c = (⟨st, p + c⟩, none) := by
  simp only [BufferSerializer.pad]
  rw [if_neg (by omega)]

theorem pad_err_eq (st : List Nat) (p c : Nat) (h : st.length < p + c) :
    BufferSerializer.pad ⟨st, p⟩ c =
      (⟨st, p⟩, some (.Overflow p c st.length)) := by
  simp only [BufferSerializer.pad]
  rw [if_pos (by omega)]

theorem seek_ok_eq (st : List Nat) (p t : Nat) (h : t ≤ st.length) :
    BufferSerializer.seek ⟨st, p⟩ t = (⟨st, t⟩, none) := by
  simp only [BufferSerializer.seek]
  rw [if_neg (by omega)]

theorem seek_err_eq (st : List Nat) (p t : Nat) (h : st.length < t) :
    BufferSerializer.seek ⟨st, p⟩ t =
      (⟨st, p⟩, some (.SoughtPastEnd t st.length)) := by
  simp only [BufferSerializer.seek]
  rw [if_pos (by omega)]

theorem length_take_of_le {α : Type} (l : List α) (n : Nat) (h : n ≤ l.length) :
    (l.take n).length = n := by
  simp [List.length_take, Nat.min_eq_left h]

theorem writeChecked_eq_of_fit (st b : List Nat) (p : Nat)
    (h : p + b.length < usizeBound) :
    BufferSerializer.writeChecked ⟨st, p⟩ b =
      some (BufferSerializer.write ⟨st, p⟩ b) := by
  simp only [BufferSerializer.writeChecked, checkedAdd, if_pos h,
    BufferSerializer.write]
  split <;> rfl

theorem padChecked_eq_of_fit (st : List Nat) (p c : Nat)
    (h : p + c < usizeBound) :
    BufferSerializer.padChecked ⟨st, p⟩ c =
      some (BufferSerializer.pad ⟨st, p⟩ c) := by
  simp only [BufferSerializer.padChecked, checkedAdd, if_pos h,
    BufferSerializer.pad]
  split <;> rfl

/-! ### C1 -/

/-- C1: for every byte sequence `b` and every `BufferSerializer` with storage
    of length `C` and position `p`, `write b` succeeds iff `p + b.length ≤ C`;
    on success the position becomes `p + b.length`, the storage keeps its
    length, the bytes at indices `[p, p + b.length)` equal `b`, and the bytes
    before `p` and from `p + b.length` on are unchanged. -/
theorem buffer_write_correct (st b : List Nat) (p : Nat) :
    ((BufferSerializer.write ⟨st, p⟩ b).2 = none ↔ p + b.length ≤ st.length) ∧
    (p + b.length ≤ st.length →
      (BufferSerializer.write ⟨st, p⟩ b).1.pos = p + b.length ∧
      (BufferSerializer.write ⟨st, p⟩ b).1.inner.length = st.length ∧
      ((BufferSerializer.write ⟨st, p⟩ b).1.inner.drop p).take b.length = b ∧
      (BufferSerializer.write ⟨st, p⟩ b).1.inner.take p = st.take p ∧
      (BufferSerializer.write ⟨st, p⟩ b).1.inner.drop (p + b.length) =
        st.drop (p + b.length)) := by
  constructor
  · constructor
    · intro hnone
      by_contra hgt
      rw [write_err_eq st b p (by omega)] at hnone
      simp at hnone
    · intro hle
      rw [write_ok_eq st b p hle]
  · intro hle
    rw [write_ok_eq st b p hle]
    have hp : p ≤ st.length := by omega
    have htk : (st.take p).length = p := length_take_of_le st p hp
    refine ⟨rfl, ?_, ?_, ?_, ?_⟩
    · simp [List.length_append, htk, List.length_drop]
      omega
    · rw [List.append_assoc, List.drop_left' htk, List.take_left' rfl]
    · rw [List.append_assoc, List.take_left' htk]
    · have : (st.take p ++ b).length = p + b.length := by
        simp [List.length_append, htk]
      rw [List.drop_left' this]

/-- Witness for C1 at a concrete input: storage `[5, 5, 5, 5]`, position 1,
    bytes `[7, 8]`. -/
theorem buffer_write_correct_witness :
    (BufferSerializer.write ⟨[5, 5, 5, 5], 1⟩ [7, 8]).2 = none ∧
    (BufferSerializer.write ⟨[5, 5, 5, 5], 1⟩ [7, 8]).1.pos = 3 ∧
    ((BufferSerializer.write ⟨[5, 5, 5, 5], 1⟩ [7, 8]).1.inner.drop 1).take 2 =
      [7, 8] := by
  have h := buffer_write_correct [5, 5, 5, 5] [7, 8] 1
  have hle : 1 + [7, 8].length ≤ [5, 5, 5, 5].length := by decide
  exact ⟨h.1.mpr hle, (h.2 hle).1, (h.2 hle).2.2.1⟩

/-! ### C4 -/

/-- C4: `seek target` on a `BufferSerializer` with storage length `C`
    succeeds and sets the position to `target` whenever `target ≤ C`
    (including `target = C`); for `target > C` it fails with
    `SoughtPastEnd target C` and leaves position and storage unchanged. -/
theorem buffer_seek_correct (st : List Nat) (p t : Nat) :
    (t ≤ st.length → BufferSerializer.seek ⟨st, p⟩ t = (⟨st, t⟩, none)) ∧
    (st.length < t →
      BufferSerializer.seek ⟨st, p⟩ t =
        (⟨st, p⟩, some (.SoughtPastEnd t st.length))) := by
  exact ⟨seek_ok_eq st p t, seek_err_eq st p t⟩

/-- Witness for C4: seeking to 2 (in bounds) and to 3 (past the end) on a
    2-byte storage at position 1. -/
theorem buffer_seek_correct_witness :
    BufferSerializer.seek ⟨[9, 9], 1⟩ 2 = (⟨[9, 9], 2⟩, none) ∧
    BufferSerializer.seek ⟨[9, 9], 1⟩ 3 =
      (⟨[9, 9], 1⟩, some (.SoughtPastEnd 3 2)) :=
  ⟨(buffer_seek_correct [9, 9] 1 2).1 (by decide),
   (buffer_seek_correct [9, 9] 1 3).2 (by decide)⟩

/-! ### C5 -/

/-- C5 counterexample: the write `[1, 2]` at the `with_pos`-reachable
    position `2^64 - 2` of a 1-byte storage lies in the claim's domain
    (`p + len > C`), yet with the bounds computation performed in checked
    `usize` arithmetic the addition traps and no `Overflow` error is ever
    produced. -/
theorem buffer_write_overflow_trap :
    [0].length < (2 ^ 64 - 2) + [1, 2].length ∧
    BufferSerializer.writeChecked
      (BufferSerializer.with_pos [0] (2 ^ 64 - 2)) [1, 2] = none :=
  ⟨by decide, rfl⟩

/-- C5 (amended): when `write bytes` overflows the storage
    (`p + bytes.length > C`) and the bounds computation does not overflow
    `usize` (`p + bytes.length < 2^64`), the call fails with `Overflow`
    carrying the position at failure time, the number of bytes needed and
    the capacity, and neither storage nor position is modified. -/
theorem buffer_write_overflow_usize (st b : List Nat) (p : Nat)
    (hlt : st.length < p + b.length) (hfit : p + b.length < usizeBound) :
    BufferSerializer.writeChecked ⟨st, p⟩ b =
      some (⟨st, p⟩, some (.Overflow p b.length st.length)) := by
  rw [writeChecked_eq_of_fit st b p hfit, write_err_eq st b p hlt]

/-- Witness for C5 (amended): writing 5 bytes at position 4 of an 8-byte
    storage (the spec's concrete scenario). -/
theorem buffer_write_overflow_usize_witness :
    BufferSerializer.writeChecked ⟨[1, 2, 3, 4, 0, 0, 0, 0], 4⟩
      [5, 6, 7, 8, 9] =
      some (⟨[1, 2, 3, 4, 0, 0, 0, 0], 4⟩, some (.Overflow 4 5 8)) :=
  buffer_write_overflow_usize [1, 2, 3, 4, 0, 0, 0, 0] [5, 6, 7, 8, 9] 4
    (by decide) (by decide)

/-! ### C6 -/

/-- C6 counterexample: at the `with_pos`-reachable position `2^64 - 1` of a
    1-byte storage, `pad 1` has `p + count > C`, yet under release-build
    (wrapping `usize`) semantics the bounds computation wraps to 0 and the
    call succeeds — refuting `pad` succeeds iff `p + count ≤ C` — while
    under debug-build (checked) semantics it traps, producing no
    `Overflow`-shaped error. -/
theorem buffer_pad_wraps_or_traps :
    [7].length < (2 ^ 64 - 1) + 1 ∧
    BufferSerializer.padWrap
      (BufferSerializer.with_pos [7] (2 ^ 64 - 1)) 1 = (⟨[7], 0⟩, none) ∧
    BufferSerializer.padChecked
      (BufferSerializer.with_pos [7] (2 ^ 64 - 1)) 1 = none :=
  ⟨by decide, rfl, rfl⟩

/-- C6 (amended): provided the bounds computation does not overflow `usize`
    (`p + count < 2^64`), `pad count` succeeds — with position `p + count`
    and the storage untouched — iff `p + count ≤ C`; on failure the error
    is exactly the `Overflow` that `write` produces for a `count`-byte
    payload; and the storage is never modified in any branch. -/
theorem buffer_pad_correct_usize (st : List Nat) (p c : Nat)
    (hfit : p + c < usizeBound) :
    (BufferSerializer.padChecked ⟨st, p⟩ c = some (⟨st, p + c⟩, none) ↔
      p + c ≤ st.length) ∧
    (st.length < p + c →
      (BufferSerializer.padChecked ⟨st, p⟩ c).map Prod.snd =
        (BufferSerializer.writeChecked ⟨st, p⟩
          (List.replicate c 0)).map Prod.snd) ∧
    (∀ r, BufferSerializer.padChecked ⟨st, p⟩ c = some r →
      r.1.inner = st) := by
  have hpc := padChecked_eq_of_fit st p c hfit
  refine ⟨⟨?_, ?_⟩, ?_, ?_⟩
  · intro hsucc
    rw [hpc] at hsucc
    by_contra hgt
    rw [pad_err_eq st p c (by omega)] at hsucc
    simp at hsucc
  · intro hle
    rw [hpc, pad_ok_eq st p c hle]
  · intro hgt
    rw [hpc, writeChecked_eq_of_fit st (List.replicate c 0) p
      (by simpa using hfit), pad_err_eq st p c hgt,
      write_err_eq st (List.replicate c 0) p (by simpa using hgt)]
    simp
  · intro r hr
    rw [hpc] at hr
    by_cases hle : p + c ≤ st.length
    · rw [pad_ok_eq st p c hle] at hr
      injection hr with h
      rw [← h]
    · rw [pad_err_eq st p c (by omega)] at hr
      injection hr with h
      rw [← h]

/-- Witness for C6 (amended): padding by 2 within bounds, and padding by 3
    past the end of a 4-byte storage at position 2. -/
theorem buffer_pad_correct_usize_witness :
    BufferSerializer.padChecked ⟨[1, 2, 3, 4], 2⟩ 2 =
      some (⟨[1, 2, 3, 4], 4⟩, none) ∧
    (BufferSerializer.padChecked ⟨[1, 2, 3, 4], 2⟩ 3).map Prod.snd =
      (BufferSerializer.writeChecked ⟨[1, 2, 3, 4], 2⟩
        (List.replicate 3 0)).map Prod.snd :=
  ⟨(buffer_pad_correct_usize [1, 2, 3, 4] 2 2 (by decide)).1.mpr (by decide),
   (buffer_pad_correct_usize [1, 2, 3, 4] 2 3 (by decide)).2.1 (by decide)⟩

/-! ### C7 -/

theorem write_append_eq (st : List Nat) (p : Nat) (a b : List Nat)
    (h : p + a.length + b.length ≤ st.length) :
    BufferSerializer.write ⟨st, p⟩ (a ++ b) =
      BufferSerializer.write (BufferSerializer.write ⟨st, p⟩ a).1 b := by
  have hp : p ≤ st.length := by omega
  have htk : (st.take p).length = p := length_take_of_le st p hp
  have hl1 : (st.take p ++ a).length = p + a.length := by
    simp [List.length_append, htk]
  rw [write_ok_eq st a p (by omega)]
  have hlen1 : (st.take p ++ a ++ st.drop (p + a.length)).length = st.length := by
    simp [List.length_append, htk, List.length_drop]
    omega
  rw [write_ok_eq st (a ++ b) p (by simp only [List.length_append]; omega)]
  dsimp only
  rw [write_ok_eq (st.take p ++ a ++ st.drop (p + a.length)) b (p + a.length)
    (by rw [hlen1]; omega)]
  have hdrop : (st.take p ++ a ++ st.drop (p + a.length)).drop
      (p + a.length + b.length) = st.drop (p + a.length + b.length) := by
    conv_lhs =>
      rw [show p + a.length + b.length = (st.take p ++ a).length + b.length
        from by rw [hl1]]
    rw [List.drop_append, List.drop_drop]
  have htake : (st.take p ++ a ++ st.drop (p + a.length)).take (p + a.length) =
      st.take p ++ a := List.take_left' hl1
  rw [hdrop, htake]
  have hpos : p + (a ++ b).length = p + a.length + b.length := by
    simp only [List.length_append]
    omega
  rw [hpos]
  simp [List.append_assoc]

theorem writeAll_eq_write_flatten (bs : List (List Nat)) (st : List Nat)
    (p : Nat) (h : p + bs.flatten.length ≤ st.length) :
    writeAll ⟨st, p⟩ bs = BufferSerializer.write ⟨st, p⟩ bs.flatten := by
  induction bs generalizing st p with
  | nil =>
    rw [writeAll, List.flatten_nil,
      write_ok_eq st [] p (by simpa using h)]
    simp
  | cons b rest ih =>
    have hlen : p + b.length + rest.flatten.length ≤ st.length := by
      have := h
      simp only [List.flatten_cons, List.length_append] at this
      omega
    have hb := write_ok_eq st b p (by omega)
    rw [writeAll, hb]
    dsimp only
    have hlen1 :
        (st.take p ++ b ++ st.drop (p + b.length)).length = st.length := by
      simp [List.length_append, length_take_of_le st p (by omega),
        List.length_drop]
      omega
    rw [ih (st.take p ++ b ++ st.drop (p + b.length)) (p + b.length)
      (by rw [hlen1]; omega)]
    rw [List.flatten_cons, write_append_eq st p b rest.flatten hlen, hb]

/-- C7: writing byte sequences `b₁, …, bₙ` sequentially from position 0,
    when their total length fits in the storage, produces exactly the same
    serializer as one `write` of their concatenation, and the first
    `Σ len bᵢ` storage bytes equal the concatenation. -/
theorem buffer_write_concat (st : List Nat) (bs : List (List Nat))
    (h : bs.flatten.length ≤ st.length) :
    writeAll ⟨st, 0⟩ bs = BufferSerializer.write ⟨st, 0⟩ bs.flatten ∧
    ((writeAll ⟨st, 0⟩ bs).1.inner).take bs.flatten.length = bs.flatten := by
  have h0 : 0 + bs.flatten.length ≤ st.length := by omega
  have heq := writeAll_eq_write_flatten bs st 0 h0
  refine ⟨heq, ?_⟩
  rw [heq, write_ok_eq st bs.flatten 0 h0]
  simp only [List.take_zero, List.nil_append]
  exact List.take_left' rfl

/-- Witness for C7: writing `[1, 2]` then `[3]` into a 4-byte storage
    equals one write of `[1, 2, 3]`, and the first 3 bytes are `[1, 2, 3]`. -/
theorem buffer_write_concat_witness :
    writeAll ⟨[0, 0, 0, 0], 0⟩ [[1, 2], [3]] =
      BufferSerializer.write ⟨[0, 0, 0, 0], 0⟩ [[1, 2], [3]].flatten ∧
    ((writeAll ⟨[0, 0, 0, 0], 0⟩ [[1, 2], [3]]).1.inner).take
      [[1, 2], [3]].flatten.length = [[1, 2], [3]].flatten :=
  buffer_write_concat [0, 0, 0, 0] [[1, 2], [3]] (by decide)

/-! ### C9 -/

/-- C9: failing `write` and `pad` calls are fully atomic — when an
    `Overflow` is returned, the serializer (both its storage and its
    position) is exactly the pre-call serializer. -/
theorem buffer_write_pad_atomic (st b : List Nat) (p c : Nat) :
    ((BufferSerializer.write ⟨st, p⟩ b).2.isSome →
      (BufferSerializer.write ⟨st, p⟩ b).1 = ⟨st, p⟩) ∧
    ((BufferSerializer.pad ⟨st, p⟩ c).2.isSome →
      (BufferSerializer.pad ⟨st, p⟩ c).1 = ⟨st, p⟩) := by
  constructor
  · intro hs
    by_cases hle : p + b.length ≤ st.length
    · rw [write_ok_eq st b p hle] at hs
      simp at hs
    · rw [write_err_eq st b p (by omega)]
  · intro hs
    by_cases hle : p + c ≤ st.length
    · rw [pad_ok_eq st p c hle] at hs
      simp at hs
    · rw [pad_err_eq st p c (by omega)]

/-- Witness for C9: a failing 1-byte `write` and a failing `pad 1` on an
    empty storage leave the serializer unchanged. -/
theorem buffer_write_pad_atomic_witness :
    (BufferSerializer.write ⟨[], 0⟩ [1]).1 = ⟨[], 0⟩ ∧
    (BufferSerializer.pad ⟨[], 0⟩ 1).1 = ⟨[], 0⟩ :=
  ⟨(buffer_write_pad_atomic [] [1] 0 1).1 (by decide),
   (buffer_write_pad_atomic [] [1] 0 1).2 (by decide)⟩

/-! ### C10 -/

/-- C10: on a serializer built by `with_pos storage p` with
    `p > storage.length`, even zero-length operations fail: writing the
    empty byte sequence and `pad 0` both return
    `Overflow {pos := p, bytes_needed := 0, archive_len := storage.length}`. -/
theorem buffer_zero_len_past_end (st : List Nat) (p : Nat)
    (h : st.length < p) :
    BufferSerializer.write (BufferSerializer.with_pos st p) [] =
      (⟨st, p⟩, some (.Overflow p 0 st.length)) ∧
    BufferSerializer.pad (BufferSerializer.with_pos st p) 0 =
      (⟨st, p⟩, some (.Overflow p 0 st.length)) := by
  constructor
  · exact write_err_eq st [] p (by simpa using h)
  · exact pad_err_eq st p 0 (by omega)

/-- Witness for C10: `with_pos [] 1`, a position one past the end of an
    empty storage. -/
theorem buffer_zero_len_past_end_witness :
    BufferSerializer.write (BufferSerializer.with_pos [] 1) [] =
      (⟨[], 1⟩, some (.Overflow 1 0 0)) ∧
    BufferSerializer.pad (BufferSerializer.with_pos [] 1) 0 =
      (⟨[], 1⟩, some (.Overflow 1 0 0)) :=
  buffer_zero_len_past_end [] 1 (by decide)

/-! ### C2 -/

/-- C2: over a destination that accepts at most one byte per call
    (`chunkDest 1`), `write [1, 2]` reports overall success after a single
    destination call that delivered only `[1]`, with the position advanced
    by 1 rather than 2 — the serializer performs no retry, so the claimed
    retry-until-delivered behaviour does not hold. -/
theorem write_serializer_short_write_bug :
    WriteSerializer.write (chunkDest 1) ⟨[], 0⟩ [1, 2] = (⟨[1], 1⟩, none) ∧
    (WriteSerializer.write (chunkDest 1) ⟨[], 0⟩ [1, 2]).1.inner ≠ [1, 2] ∧
    (WriteSerializer.write (chunkDest 1) ⟨[], 0⟩ [1, 2]).1.pos ≠ 2 :=
  ⟨rfl, by decide, by decide⟩

/-! ### C3 -/

/-- C3 counterexample: with the bounds computation performed in checked
    `usize` arithmetic, a serializer constructed by
    `with_pos storage (2^64 - 1)` traps (models a debug-build overflow
    panic) on a 1-byte `write` and on `pad 1`, before any typed error can
    be returned. -/
theorem buffer_bounds_check_traps :
    BufferSerializer.writeChecked
      (BufferSerializer.with_pos [] (2 ^ 64 - 1)) [0] = none ∧
    BufferSerializer.padChecked
      (BufferSerializer.with_pos [] (2 ^ 64 - 1)) 1 = none := by
  constructor <;> rfl

/-- C3 (amended): provided the bounds computation does not overflow
    `usize` (`pos + length < 2^64`), `write` and `pad` never trap: the
    checked-arithmetic semantics coincides with the pure one, which on any
    bounds violation returns a typed `Overflow` error and otherwise
    succeeds. -/
theorem buffer_no_trap_within_usize (st b : List Nat) (p c : Nat)
    (hw : p + b.length < usizeBound) (hc : p + c < usizeBound) :
    BufferSerializer.writeChecked ⟨st, p⟩ b =
      some (BufferSerializer.write ⟨st, p⟩ b) ∧
    BufferSerializer.padChecked ⟨st, p⟩ c =
      some (BufferSerializer.pad ⟨st, p⟩ c) := by
  constructor
  · simp only [BufferSerializer.writeChecked, checkedAdd, if_pos hw,
      BufferSerializer.write]
    split <;> rfl
  · simp only [BufferSerializer.padChecked, checkedAdd, if_pos hc,
      BufferSerializer.pad]
    split <;> rfl

/-- Witness for C3 (amended) at position 0, a 1-byte write and `pad 1`. -/
theorem buffer_no_trap_within_usize_witness :
    BufferSerializer.writeChecked ⟨[], 0⟩ [1] =
      some (BufferSerializer.write ⟨[], 0⟩ [1]) ∧
    BufferSerializer.padChecked ⟨[], 0⟩ 1 =
      some (BufferSerializer.pad ⟨[], 0⟩ 1) :=
  buffer_no_trap_within_usize [] [1] 0 1 (by decide) (by decide)

/-! ### C8 -/

/-- C8: `seek target` on a `WriteSerializer` delegates to the destination's
    absolute reposition with `target`; if the destination succeeds the
    position becomes `target`, and if the destination reports an error the
    error is propagated unchanged and the position is not updated. -/
theorem write_serializer_seek_correct {σ ε : Type} (d : Dest σ ε)
    (s : WriteSerializer σ) (t : Nat) :
    (∀ st, d.seekFn s.inner t = (st, none) →
      WriteSerializer.seek d s t = (⟨st, t⟩, none)) ∧
    (∀ st e, d.seekFn s.inner t = (st, some e) →
      WriteSerializer.seek d s t = (⟨st, s.pos⟩, some e)) := by
  constructor
  · intro st h
    simp [WriteSerializer.seek, h]
  · intro st e h
    simp [WriteSerializer.seek, h]

/-- Witness for C8: a destination whose reposition succeeds (`chunkDest 1`)
    sets the position to the target; one whose reposition fails
    (`failDest`) propagates its error and leaves the position at 5. -/
theorem write_serializer_seek_correct_witness :
    WriteSerializer.seek (chunkDest 1) ⟨[3], 5⟩ 2 = (⟨[3], 2⟩, none) ∧
    WriteSerializer.seek failDest ⟨[3], 5⟩ 2 = (⟨[3], 5⟩, some ()) :=
  ⟨(write_serializer_seek_correct (chunkDest 1) ⟨[3], 5⟩ 2).1 [3] rfl,
   (write_serializer_seek_correct failDest ⟨[3], 5⟩ 2).2 [3] () rfl⟩

end Rkyv
